import Mathlib

/-!
Shallow embedding of `stern/watch.go` (package `stern`): the event
watch-and-filter engine `Watch`, its registry `podNameList`, the helper
`contains`, and the per-event processing of the goroutine's select loop.

Regular-expression filters (`*regexp.Regexp`) are embedded as Boolean
predicates on strings; the nil-ability of `containerExcludeFilter` is kept
as an `Option`.  Container runtime states (`corev1.ContainerState`) are
opaque to the loop (they are only handed to `containerState.Match`), so
they are embedded as `String`.
-/

namespace Stern

/-- `Target` from watch.go: one (namespace, pod, container) unit of
observation. -/
structure Target where
  Namespace : String
  Pod : String
  Container : String
deriving DecidableEq

/-- A container runtime status entry (`corev1.ContainerStatus`), reduced to
the two fields `Watch` reads: the name and the (opaque) state. -/
structure ContainerStatus where
  Name : String
  State : String
deriving DecidableEq

/-- A declared container (`corev1.Container`); `Watch` reads only its name. -/
structure Container where
  Name : String
deriving DecidableEq

/-- The fields of `pod.Status` that `Watch` reads. -/
structure PodStatus where
  ContainerStatuses : List ContainerStatus
  InitContainerStatuses : List ContainerStatus
deriving DecidableEq

/-- The fields of `pod.Spec` that `Watch` reads. -/
structure PodSpec where
  Containers : List Container
  InitContainers : List Container
deriving DecidableEq

/-- The fields of `corev1.Pod` that `Watch` reads. -/
structure Pod where
  Namespace : String
  Name : String
  Status : PodStatus
  Spec : PodSpec
deriving DecidableEq

/-- Modelled from the spec: the lifecycle-state classifier `ContainerState`
is defined outside the provided source file; the spec states the core only
calls it as `matches(state) -> bool` (`Match` in the code) and
`hasWildcard() -> bool` (`has(ALL)` in the code).  We embed it as the pair
of those two capabilities. -/
structure ContainerState where
  Match : String → Bool
  hasALL : Bool

/-- The immutable per-session parameters of `Watch` (its arguments other
than the context and the pod interface). -/
structure WatchConfig where
  podFilter : String → Bool
  containerFilter : String → Bool
  containerExcludeFilter : Option (String → Bool)
  initContainers : Bool
  containerState : ContainerState

/-- A notification sent on one of the two output channels of `Watch`. -/
inductive Notif
  | added (t : Target)
  | removed (t : Target)
deriving DecidableEq

/-- The target carried by a notification. -/
def Notif.target : Notif → Target
  | .added t => t
  | .removed t => t

/-- Whether a notification was sent on the `added` channel. -/
def Notif.isAdded : Notif → Bool
  | .added _ => true
  | .removed _ => false

/-- The event kinds the switch in `Watch` distinguishes
(`watch.Added`, `watch.Modified`, `watch.Deleted`, anything else). -/
inductive EventType
  | Added
  | Modified
  | Deleted
  | Other
deriving DecidableEq

/-- One value received from `watcher.ResultChan()`: either `e.Object == nil`
(upstream closed), or an object that is not a `*corev1.Pod`, or a pod event
with its kind. -/
inductive WatchEvent
  | nilObject
  | nonPod
  | podEvent (ty : EventType) (pod : Pod)
deriving DecidableEq

/-- One iteration input of the select loop: either a value from the
watcher's result channel or the firing of `ctx.Done()`. -/
inductive Sig
  | ev (e : WatchEvent)
  | cancel
deriving DecidableEq

/-- Helper `contains` from watch.go, inner loop: linear search returning the
index of the first occurrence, or -1.  `index` is the accumulated position of
the `for index, podName := range` loop. -/
def containsAux (podNameSlice : List String) (podNameItem : String)
    (index : Nat) : Int :=
  match podNameSlice with
  | [] => -1
  | podName :: rest =>
      if podName = podNameItem then (index : Int)
      else containsAux rest podNameItem (index + 1)

/-- Helper `contains` from watch.go: index of the first occurrence of
`podNameItem` in `podNameSlice`, or -1 when absent. -/
def contains (podNameSlice : List String) (podNameItem : String) : Int :=
  containsAux podNameSlice podNameItem 0

/-- The copy-shift-truncate idiom of watch.go lines 108-110 and 134-136:
remove the element at position `index`. -/
def removeAt (l : List String) (index : Nat) : List String :=
  l.take index ++ l.drop (index + 1)

/-- The removal block of watch.go (lines 106-111 and 132-137): look up
`pod.Name`, and remove the element at that index when it is found. -/
def removeFirst (l : List String) (x : String) : List String :=
  let index := contains l x
  if index = -1 then l else removeAt l index.toNat

/-- Position of the first occurrence of `x` in `l`, specification-style
companion of `containsAux` used to reason about it. -/
def idxOf? (l : List String) (x : String) : Option Nat :=
  match l with
  | [] => none
  | a :: rest => if a = x then some 0 else (idxOf? rest x).map (· + 1)

/-- The `containerExcludeFilter != nil && containerExcludeFilter.MatchString(name)`
test of watch.go lines 86 and 127. -/
def excludeMatches (cfg : WatchConfig) (name : String) : Bool :=
  match cfg.containerExcludeFilter with
  | some f => f name
  | none => false

/-- The body of the `for _, c := range statuses` loop of the
Added/Modified branch (watch.go lines 82-115), for one container status:
returns the updated `podNameList` and the notifications sent. -/
def statusStep (cfg : WatchConfig) (pod : Pod) (podNameList : List String)
    (c : ContainerStatus) : List String × List Notif :=
  if ¬ cfg.containerFilter c.Name then (podNameList, [])
  else if excludeMatches cfg c.Name then (podNameList, [])
  else
    let t : Target := ⟨pod.Namespace, pod.Name, c.Name⟩
    if cfg.containerState.Match c.State then
      (podNameList ++ [pod.Name], [Notif.added t])
    else if cfg.containerState.hasALL then
      if contains podNameList pod.Name = -1 then
        (podNameList ++ [pod.Name], [Notif.added t])
      else (podNameList, [])
    else
      (removeFirst podNameList pod.Name, [Notif.removed t])

/-- The body of the `for _, c := range containers` loop of the Deleted
branch (watch.go lines 123-145), for one declared container: remove one
occurrence of the pod name when present, then send `removed`
unconditionally. -/
def containerStep (cfg : WatchConfig) (pod : Pod) (podNameList : List String)
    (c : Container) : List String × List Notif :=
  if ¬ cfg.containerFilter c.Name then (podNameList, [])
  else if excludeMatches cfg c.Name then (podNameList, [])
  else
    (removeFirst podNameList pod.Name,
     [Notif.removed ⟨pod.Namespace, pod.Name, c.Name⟩])

/-- Sequential left-to-right processing of a candidate list, threading the
registry and concatenating emissions in order. -/
def runSteps {α : Type}
    (step : List String → α → List String × List Notif)
    (podNameList : List String) : List α → List String × List Notif
  | [] => (podNameList, [])
  | c :: rest =>
      let r := step podNameList c
      let r2 := runSteps step r.1 rest
      (r2.1, r.2 ++ r2.2)

/-- Processing of one pod-carrying event (watch.go lines 70-146): the pod
name filter, then the switch on the event type. -/
def processPodEvent (cfg : WatchConfig) (podNameList : List String)
    (ty : EventType) (pod : Pod) : List String × List Notif :=
  if ¬ cfg.podFilter pod.Name then (podNameList, [])
  else
    match ty with
    | .Added | .Modified =>
        let statuses := pod.Status.ContainerStatuses ++
          (if cfg.initContainers then pod.Status.InitContainerStatuses else [])
        runSteps (statusStep cfg pod) podNameList statuses
    | .Deleted =>
        let containers := pod.Spec.Containers ++
          (if cfg.initContainers then pod.Spec.InitContainers else [])
        runSteps (containerStep cfg pod) podNameList containers
    | .Other => (podNameList, [])

/-- Observable outcome of running the goroutine of `Watch` on a finite
prefix of loop inputs: all notifications emitted in order, the final
`podNameList`, whether each output channel was closed, how many times
`watcher.Stop()` was called, and whether the goroutine returned. -/
structure WatchResult where
  emitted : List Notif
  podNameList : List String
  closedAdded : Bool
  closedRemoved : Bool
  stopCalls : Nat
  returned : Bool
deriving DecidableEq

/-- The select loop of the goroutine of `Watch` (watch.go lines 57-153),
run over a finite trace of iteration inputs.  `ctx.Done()` stops the
watcher, closes both channels and returns; `e.Object == nil` returns
without stopping or closing anything; other events are processed and the
loop continues.  An exhausted trace leaves the goroutine still running
(nothing closed, not returned). -/
def runLoop (cfg : WatchConfig) (podNameList : List String)
    (acc : List Notif) : List Sig → WatchResult
  | [] => ⟨acc, podNameList, false, false, 0, false⟩
  | .cancel :: _ => ⟨acc, podNameList, true, true, 1, true⟩
  | .ev .nilObject :: _ => ⟨acc, podNameList, false, false, 0, true⟩
  | .ev .nonPod :: rest => runLoop cfg podNameList acc rest
  | .ev (.podEvent ty pod) :: rest =>
      let r := processPodEvent cfg podNameList ty pod
      runLoop cfg r.1 (acc ++ r.2) rest

/-- A whole session: the goroutine starts with an empty `podNameList` and
nothing emitted. -/
def runWatch (cfg : WatchConfig) (trace : List Sig) : WatchResult :=
  runLoop cfg [] [] trace

/-- Whether a loop input makes the goroutine return (cancellation, or a nil
object from the result channel). -/
def Sig.isTerminal : Sig → Bool
  | .cancel => true
  | .ev .nilObject => true
  | _ => false

/-- A trace segment none of whose inputs terminates the loop. -/
def noTerminal (trace : List Sig) : Prop :=
  ∀ s ∈ trace, s.isTerminal = false

instance : DecidablePred noTerminal := fun trace =>
  List.decidableBAll (fun s => Sig.isTerminal s = false) trace

/-- A trace with no Deleted pod event. -/
def noDeleted (trace : List Sig) : Prop :=
  ∀ pod : Pod, Sig.ev (WatchEvent.podEvent EventType.Deleted pod) ∉ trace

/-- The notifications of `ems` whose target's pod name is `p`. -/
def notifsFor (p : String) (ems : List Notif) : List Notif :=
  ems.filter (fun n => n.target.Pod = p)

/-- The most recent notification emitted for pod name `p` is an `added`
(with no later notification for `p` at all, in particular no `removed`). -/
def lastIsAdded (p : String) (ems : List Notif) : Prop :=
  ∃ t, (notifsFor p ems).getLast? = some (Notif.added t)

/-- Session invariant relating the registry to the emission history: if the
most recent notification emitted for pod name `p` is an `added`, then `p`
occurs in the registry. -/
def InvC1 (p : String) (lst : List String) (acc : List Notif) : Prop :=
  lastIsAdded p acc → 0 < List.count p lst

/-! Helper lemmas about the linear-search helper `contains` and the
removal idiom `removeFirst`. -/

theorem containsAux_of_none (x : String) :
    ∀ (l : List String) (i : Nat), idxOf? l x = none → containsAux l x i = -1 := by
  intro l
  induction l with
  | nil => intro i _; rfl
  | cons a rest ih =>
      intro i h
      by_cases hax : a = x
      · simp [idxOf?, hax] at h
      · simp only [idxOf?, if_neg hax, Option.map_eq_none'] at h
        rw [containsAux, if_neg hax]
        exact ih (i + 1) h

theorem containsAux_of_some (x : String) :
    ∀ (l : List String) (i n : Nat), idxOf? l x = some n →
      containsAux l x i = (i : Int) + n := by
  intro l
  induction l with
  | nil => intro i n h; simp [idxOf?] at h
  | cons a rest ih =>
      intro i n h
      by_cases hax : a = x
      · simp only [idxOf?, if_pos hax, Option.some.injEq] at h
        rw [containsAux, if_pos hax, ← h]
        simp
      · simp only [idxOf?, if_neg hax] at h
        cases hm : idxOf? rest x with
        | none => rw [hm] at h; simp at h
        | some m =>
            rw [hm, Option.map_some', Option.some.injEq] at h
            rw [containsAux, if_neg hax, ih (i + 1) m hm]
            push_cast
            omega

theorem idxOf?_eq_none_iff (l : List String) (x : String) :
    idxOf? l x = none ↔ x ∉ l := by
  induction l with
  | nil => simp [idxOf?]
  | cons a rest ih =>
      by_cases h : a = x
      · simp [idxOf?, h]
      · simp only [idxOf?, if_neg h, Option.map_eq_none', ih, List.mem_cons]
        constructor
        · intro hx hor
          rcases hor with h1 | h1
          · exact h h1.symm
          · exact hx h1
        · intro hx hr
          exact hx (Or.inr hr)

theorem contains_eq_neg_one_iff (l : List String) (x : String) :
    contains l x = -1 ↔ x ∉ l := by
  cases hr : idxOf? l x with
  | none =>
      simp only [contains]
      rw [containsAux_of_none x l 0 hr]
      simpa using (idxOf?_eq_none_iff l x).mp hr
  | some n =>
      simp only [contains]
      rw [containsAux_of_some x l 0 n hr]
      have hmem : x ∈ l := by
        by_contra hx
        rw [← idxOf?_eq_none_iff l x] at hx
        rw [hx] at hr
        exact Option.noConfusion hr
      simp only [hmem, not_true_eq_false, iff_false]
      omega

theorem removeFirst_eq_erase (l : List String) (x : String) :
    removeFirst l x = l.erase x := by
  induction l with
  | nil => rfl
  | cons a rest ih =>
      by_cases h : a = x
      · subst h
        have hc : contains (a :: rest) a = 0 := by
          simp [contains, containsAux]
        simp [removeFirst, hc, removeAt, List.erase_cons]
      · have hne : (a == x) = false := by simp [h]
        cases hr : idxOf? rest x with
        | none =>
            have hxrest : x ∉ rest := (idxOf?_eq_none_iff rest x).mp hr
            have hxlist : x ∉ a :: rest := by
              intro hmem
              rcases List.mem_cons.mp hmem with h1 | h1
              · exact h h1.symm
              · exact hxrest h1
            have hc : contains (a :: rest) x = -1 :=
              (contains_eq_neg_one_iff _ _).mpr hxlist
            rw [List.erase_of_not_mem hxlist]
            simp [removeFirst, hc]
        | some n =>
            have hcr : contains rest x = (n : Int) := by
              have hca := containsAux_of_some x rest 0 n hr
              simp only [contains, hca]
              omega
            have hc : contains (a :: rest) x = (n : Int) + 1 := by
              have h2 : idxOf? (a :: rest) x = some (n + 1) := by
                simp [idxOf?, h, hr]
              have hca := containsAux_of_some x (a :: rest) 0 (n + 1) h2
              simp only [contains, hca]
              push_cast
              omega
            have hstep : removeFirst (a :: rest) x = a :: removeFirst rest x := by
              simp only [removeFirst, hc, hcr]
              have h1 : ¬ ((n : Int) + 1 = -1) := by omega
              have h2 : ¬ ((n : Int) = -1) := by omega
              rw [if_neg h1, if_neg h2]
              have h3 : ((n : Int) + 1).toNat = n + 1 := by omega
              have h4 : ((n : Int)).toNat = n := by omega
              rw [h3, h4]
              simp only [removeAt]
              rw [List.take_succ_cons, List.drop_succ_cons, List.cons_append]
            rw [hstep, ih, List.erase_cons, hne]
            simp

theorem count_removeFirst_self (l : List String) (x : String) :
    List.count x (removeFirst l x) = List.count x l - 1 := by
  rw [removeFirst_eq_erase]
  exact List.count_erase_self x l

theorem count_removeFirst_of_ne {p x : String} (h : p ≠ x) (l : List String) :
    List.count p (removeFirst l x) = List.count p l := by
  rw [removeFirst_eq_erase]
  exact List.count_erase_of_ne h l

theorem removeFirst_of_not_mem {l : List String} {x : String} (h : x ∉ l) :
    removeFirst l x = l := by
  rw [removeFirst_eq_erase]
  exact List.erase_of_not_mem h

/-! Lemmas about the emission history and the registry invariant. -/

theorem notifsFor_append (p : String) (a b : List Notif) :
    notifsFor p (a ++ b) = notifsFor p a ++ notifsFor p b :=
  List.filter_append a b

theorem lastIsAdded_append_single (p : String) (acc : List Notif) (n : Notif) :
    lastIsAdded p (acc ++ [n]) ↔
      (if n.target.Pod = p then ∃ t, n = Notif.added t else lastIsAdded p acc) := by
  unfold lastIsAdded
  rw [notifsFor_append]
  by_cases h : n.target.Pod = p
  · rw [if_pos h]
    have hf : notifsFor p [n] = [n] := by simp [notifsFor, h]
    rw [hf, List.getLast?_concat]
    simp
  · rw [if_neg h]
    have hf : notifsFor p [n] = [] := by simp [notifsFor, h]
    rw [hf, List.append_nil]

theorem invC1_id (p : String) (lst : List String) (acc : List Notif)
    (h : InvC1 p lst acc) : InvC1 p lst (acc ++ []) := by
  simpa using h

theorem invC1_append_added (p : String) (lst : List String) (acc : List Notif)
    (q ns cn : String) (h : InvC1 p lst acc) :
    InvC1 p (lst ++ [q]) (acc ++ [Notif.added ⟨ns, q, cn⟩]) := by
  intro hl
  rw [lastIsAdded_append_single] at hl
  by_cases hq : q = p
  · subst hq
    simp [List.count_append]
  · rw [List.count_append]
    simp only [Notif.target] at hl
    rw [if_neg hq] at hl
    have := h hl
    omega

theorem invC1_removeFirst (p : String) (lst : List String) (acc : List Notif)
    (q ns cn : String) (h : InvC1 p lst acc) :
    InvC1 p (removeFirst lst q) (acc ++ [Notif.removed ⟨ns, q, cn⟩]) := by
  intro hl
  rw [lastIsAdded_append_single] at hl
  simp only [Notif.target] at hl
  by_cases hq : q = p
  · rw [if_pos hq] at hl
    rcases hl with ⟨t, ht⟩
    exact absurd ht (by simp)
  · rw [if_neg hq] at hl
    rw [count_removeFirst_of_ne (fun he => hq he.symm)]
    exact h hl

theorem statusStep_invC1 (cfg : WatchConfig) (pod : Pod) (p : String)
    (lst : List String) (c : ContainerStatus) (acc : List Notif)
    (h : InvC1 p lst acc) :
    InvC1 p (statusStep cfg pod lst c).1 (acc ++ (statusStep cfg pod lst c).2) := by
  unfold statusStep
  by_cases h1 : cfg.containerFilter c.Name
  · by_cases h2 : excludeMatches cfg c.Name
    · simp only [h1, not_true_eq_false, if_false, h2, if_true]
      exact invC1_id p lst acc h
    · by_cases h3 : cfg.containerState.Match c.State
      · simp only [h1, not_true_eq_false, if_false, h2, Bool.false_eq_true,
          h3, if_true]
        exact invC1_append_added p lst acc pod.Name pod.Namespace c.Name h
      · by_cases h4 : cfg.containerState.hasALL
        · by_cases h5 : contains lst pod.Name = -1
          · simp only [h1, not_true_eq_false, if_false, h2, Bool.false_eq_true,
              h3, h4, if_true, h5]
            exact invC1_append_added p lst acc pod.Name pod.Namespace c.Name h
          · simp only [h1, not_true_eq_false, if_false, h2, Bool.false_eq_true,
              h3, h4, if_true, h5]
            exact invC1_id p lst acc h
        · simp only [h1, not_true_eq_false, if_false, h2, Bool.false_eq_true,
            h3, h4]
          exact invC1_removeFirst p lst acc pod.Name pod.Namespace c.Name h
  · simp only [h1, not_false_eq_true, if_true]
    exact invC1_id p lst acc h

theorem containerStep_invC1 (cfg : WatchConfig) (pod : Pod) (p : String)
    (lst : List String) (c : Container) (acc : List Notif)
    (h : InvC1 p lst acc) :
    InvC1 p (containerStep cfg pod lst c).1 (acc ++ (containerStep cfg pod lst c).2) := by
  unfold containerStep
  by_cases h1 : cfg.containerFilter c.Name
  · by_cases h2 : excludeMatches cfg c.Name
    · simp only [h1, not_true_eq_false, if_false, h2, if_true]
      exact invC1_id p lst acc h
    · simp only [h1, not_true_eq_false, if_false, h2, Bool.false_eq_true, if_false]
      exact invC1_removeFirst p lst acc pod.Name pod.Namespace c.Name h
  · simp only [h1, not_false_eq_true, if_true]
    exact invC1_id p lst acc h

theorem runSteps_invC1 {α : Type} (p : String)
    (step : List String → α → List String × List Notif)
    (hstep : ∀ lst c acc, InvC1 p lst acc →
      InvC1 p (step lst c).1 (acc ++ (step lst c).2)) :
    ∀ (items : List α) (lst : List String) (acc : List Notif),
      InvC1 p lst acc →
      InvC1 p (runSteps step lst items).1 (acc ++ (runSteps step lst items).2) := by
  intro items
  induction items with
  | nil => intro lst acc h; simpa [runSteps] using h
  | cons c rest ih =>
      intro lst acc h
      have h1 := hstep lst c acc h
      have h2 := ih (step lst c).1 (acc ++ (step lst c).2) h1
      simpa [runSteps, List.append_assoc] using h2

theorem processPodEvent_invC1 (cfg : WatchConfig) (p : String)
    (lst : List String) (ty : EventType) (pod : Pod) (acc : List Notif)
    (h : InvC1 p lst acc) :
    InvC1 p (processPodEvent cfg lst ty pod).1
      (acc ++ (processPodEvent cfg lst ty pod).2) := by
  unfold processPodEvent
  by_cases hp : cfg.podFilter pod.Name
  · simp only [hp, not_true_eq_false, if_false]
    cases ty with
    | Added =>
        exact runSteps_invC1 p (statusStep cfg pod)
          (fun l c a => statusStep_invC1 cfg pod p l c a) _ lst acc h
    | Modified =>
        exact runSteps_invC1 p (statusStep cfg pod)
          (fun l c a => statusStep_invC1 cfg pod p l c a) _ lst acc h
    | Deleted =>
        exact runSteps_invC1 p (containerStep cfg pod)
          (fun l c a => containerStep_invC1 cfg pod p l c a) _ lst acc h
    | Other => exact invC1_id p lst acc h
  · simp only [hp, not_false_eq_true, if_true]
    exact invC1_id p lst acc h

theorem runLoop_invC1 (cfg : WatchConfig) (p : String) :
    ∀ (trace : List Sig) (lst : List String) (acc : List Notif),
      InvC1 p lst acc →
      InvC1 p (runLoop cfg lst acc trace).podNameList
        (runLoop cfg lst acc trace).emitted := by
  intro trace
  induction trace with
  | nil => intro lst acc h; exact h
  | cons s rest ih =>
      intro lst acc h
      cases s with
      | cancel => exact h
      | ev e =>
          cases e with
          | nilObject => exact h
          | nonPod => exact ih lst acc h
          | podEvent ty pod =>
              exact ih _ _ (processPodEvent_invC1 cfg p lst ty pod acc h)

/-! Lemmas about running the loop over a trace split into segments. -/

theorem runLoop_append (cfg : WatchConfig) :
    ∀ (pre suf : List Sig) (lst : List String) (acc : List Notif),
      noTerminal pre →
      runLoop cfg lst acc (pre ++ suf) =
        runLoop cfg (runLoop cfg lst acc pre).podNameList
          (runLoop cfg lst acc pre).emitted suf := by
  intro pre
  induction pre with
  | nil => intro suf lst acc _; rfl
  | cons s rest ih =>
      intro suf lst acc h
      have hs : s.isTerminal = false := h s (List.mem_cons_self s rest)
      have hrest : noTerminal rest := fun x hx => h x (List.mem_cons_of_mem s hx)
      cases s with
      | cancel => simp [Sig.isTerminal] at hs
      | ev e =>
          cases e with
          | nilObject => simp [Sig.isTerminal] at hs
          | nonPod =>
              rw [List.cons_append]
              exact ih suf lst acc hrest
          | podEvent ty pod =>
              rw [List.cons_append]
              exact ih suf _ _ hrest

/-! Behavior lemmas for the per-child step functions. -/

theorem statusStep_match_eq (cfg : WatchConfig) (pod : Pod)
    (lst : List String) (c : ContainerStatus)
    (h1 : cfg.containerFilter c.Name = true)
    (h2 : excludeMatches cfg c.Name = false)
    (h3 : cfg.containerState.Match c.State = true) :
    statusStep cfg pod lst c =
      (lst ++ [pod.Name], [Notif.added ⟨pod.Namespace, pod.Name, c.Name⟩]) := by
  simp [statusStep, h1, h2, h3]

theorem statusStep_noall_eq (cfg : WatchConfig) (pod : Pod)
    (lst : List String) (c : ContainerStatus)
    (h1 : cfg.containerFilter c.Name = true)
    (h2 : excludeMatches cfg c.Name = false)
    (h3 : cfg.containerState.Match c.State = false)
    (h4 : cfg.containerState.hasALL = false) :
    statusStep cfg pod lst c =
      (removeFirst lst pod.Name,
       [Notif.removed ⟨pod.Namespace, pod.Name, c.Name⟩]) := by
  simp [statusStep, h1, h2, h3, h4]

theorem statusStep_all_mem_eq (cfg : WatchConfig) (pod : Pod)
    (lst : List String) (c : ContainerStatus)
    (h1 : cfg.containerFilter c.Name = true)
    (h2 : excludeMatches cfg c.Name = false)
    (h3 : cfg.containerState.Match c.State = false)
    (h4 : cfg.containerState.hasALL = true)
    (h5 : pod.Name ∈ lst) :
    statusStep cfg pod lst c = (lst, []) := by
  have hc : ¬ (contains lst pod.Name = -1) := by
    rw [contains_eq_neg_one_iff]
    simpa using h5
  simp [statusStep, h1, h2, h3, h4, hc]

theorem statusStep_all_notmem_eq (cfg : WatchConfig) (pod : Pod)
    (lst : List String) (c : ContainerStatus)
    (h1 : cfg.containerFilter c.Name = true)
    (h2 : excludeMatches cfg c.Name = false)
    (h3 : cfg.containerState.Match c.State = false)
    (h4 : cfg.containerState.hasALL = true)
    (h5 : pod.Name ∉ lst) :
    statusStep cfg pod lst c =
      (lst ++ [pod.Name], [Notif.added ⟨pod.Namespace, pod.Name, c.Name⟩]) := by
  have hc : contains lst pod.Name = -1 := (contains_eq_neg_one_iff _ _).mpr h5
  simp [statusStep, h1, h2, h3, h4, hc]

theorem containerStep_pass_eq (cfg : WatchConfig) (pod : Pod)
    (lst : List String) (c : Container)
    (h1 : cfg.containerFilter c.Name = true)
    (h2 : excludeMatches cfg c.Name = false) :
    containerStep cfg pod lst c =
      (removeFirst lst pod.Name,
       [Notif.removed ⟨pod.Namespace, pod.Name, c.Name⟩]) := by
  simp [containerStep, h1, h2]

theorem statusStep_excluded_eq (cfg : WatchConfig) (pod : Pod)
    (lst : List String) (c : ContainerStatus)
    (h2 : excludeMatches cfg c.Name = true) :
    statusStep cfg pod lst c = (lst, []) := by
  by_cases h1 : cfg.containerFilter c.Name <;> simp [statusStep, h1, h2]

theorem containerStep_excluded_eq (cfg : WatchConfig) (pod : Pod)
    (lst : List String) (c : Container)
    (h2 : excludeMatches cfg c.Name = true) :
    containerStep cfg pod lst c = (lst, []) := by
  by_cases h1 : cfg.containerFilter c.Name <;> simp [containerStep, h1, h2]

/-! Lemmas for the wildcard mode: Added/Modified processing only ever sends
on the `added` channel. -/

theorem statusStep_all_isAdded (cfg : WatchConfig) (pod : Pod)
    (hall : cfg.containerState.hasALL = true) :
    ∀ (lst : List String) (c : ContainerStatus) (n : Notif),
      n ∈ (statusStep cfg pod lst c).2 → n.isAdded = true := by
  intro lst c n hn
  unfold statusStep at hn
  by_cases h1 : cfg.containerFilter c.Name
  · by_cases h2 : excludeMatches cfg c.Name
    · simp [h1, h2] at hn
    · by_cases h3 : cfg.containerState.Match c.State
      · simp [h1, h2, h3] at hn
        simp [hn, Notif.isAdded]
      · by_cases h5 : contains lst pod.Name = -1
        · simp [h1, h2, h3, hall, h5] at hn
          simp [hn, Notif.isAdded]
        · simp [h1, h2, h3, hall, h5] at hn
  · simp [h1] at hn

theorem runSteps_all_added {α : Type}
    (step : List String → α → List String × List Notif)
    (hstep : ∀ (lst : List String) (c : α) (n : Notif),
      n ∈ (step lst c).2 → n.isAdded = true) :
    ∀ (items : List α) (lst : List String) (n : Notif),
      n ∈ (runSteps step lst items).2 → n.isAdded = true := by
  intro items
  induction items with
  | nil => intro lst n hn; simp [runSteps] at hn
  | cons c rest ih =>
      intro lst n hn
      simp only [runSteps] at hn
      rcases List.mem_append.mp hn with h | h
      · exact hstep lst c n h
      · exact ih (step lst c).1 n h

theorem processPodEvent_all_added (cfg : WatchConfig)
    (hall : cfg.containerState.hasALL = true)
    (lst : List String) (ty : EventType) (pod : Pod)
    (hty : ty ≠ EventType.Deleted) :
    ∀ n ∈ (processPodEvent cfg lst ty pod).2, n.isAdded = true := by
  intro n hn
  unfold processPodEvent at hn
  by_cases hp : cfg.podFilter pod.Name
  · simp only [hp, not_true_eq_false, if_false] at hn
    cases ty with
    | Added =>
        exact runSteps_all_added (statusStep cfg pod)
          (statusStep_all_isAdded cfg pod hall) _ lst n hn
    | Modified =>
        exact runSteps_all_added (statusStep cfg pod)
          (statusStep_all_isAdded cfg pod hall) _ lst n hn
    | Deleted => exact absurd rfl hty
    | Other => simp at hn
  · simp [hp] at hn

theorem runLoop_all_added (cfg : WatchConfig)
    (hall : cfg.containerState.hasALL = true) :
    ∀ (trace : List Sig) (lst : List String) (acc : List Notif),
      noDeleted trace → (∀ n ∈ acc, n.isAdded = true) →
      ∀ n ∈ (runLoop cfg lst acc trace).emitted, n.isAdded = true := by
  intro trace
  induction trace with
  | nil => intro lst acc _ hacc; exact hacc
  | cons s rest ih =>
      intro lst acc hnd hacc
      have hndr : noDeleted rest := by
        intro pod hmem
        exact hnd pod (List.mem_cons_of_mem s hmem)
      cases s with
      | cancel => exact hacc
      | ev e =>
          cases e with
          | nilObject => exact hacc
          | nonPod => exact ih lst acc hndr hacc
          | podEvent ty pod =>
              have hty : ty ≠ EventType.Deleted := by
                intro h
                subst h
                exact hnd pod (List.mem_cons_self _ _)
              apply ih _ _ hndr
              intro n hn
              rcases List.mem_append.mp hn with h | h
              · exact hacc n h
              · exact processPodEvent_all_added cfg hall lst ty pod hty n h

/-! Claim theorems. -/

/-- C1 (amended): the registry `podNameList` uses list semantics and may
contain a parent name several times.  What does hold, for every processed
event sequence: whenever the most recent notification emitted for a parent
name is an `added` with no subsequent `removed`, the parent name is a
member of the registry. -/
theorem watch_C1 (cfg : WatchConfig) (trace : List Sig) (p : String)
    (h : lastIsAdded p (runWatch cfg trace).emitted) :
    p ∈ (runWatch cfg trace).podNameList := by
  have h0 : InvC1 p [] [] := by
    intro hl
    rcases hl with ⟨t, ht⟩
    simp [notifsFor] at ht
  have hinv := runLoop_invC1 cfg p trace [] [] h0
  exact List.count_pos_iff.mp (hinv h)

/-- C1 counterexample: two Added/Modified events with a matching child make
`p1` occur twice in the registry, refuting "each parent name at most once";
and after a subsequent occurrence-removal, `p1` is still a member although
the most recent notification for it is a `removed`, refuting the
"exactly when" direction. -/
theorem watch_C1_counterexample :
    List.count "p1"
      (runWatch
        ⟨fun _ => true, fun _ => true, none, false,
          ⟨fun s => s = "running", false⟩⟩
        [Sig.ev (WatchEvent.podEvent EventType.Added
            ⟨"ns", "p1", ⟨[⟨"c1", "running"⟩], []⟩, ⟨[], []⟩⟩),
         Sig.ev (WatchEvent.podEvent EventType.Modified
            ⟨"ns", "p1", ⟨[⟨"c1", "running"⟩], []⟩, ⟨[], []⟩⟩)]).podNameList
      = 2 ∧
    (runWatch
        ⟨fun _ => true, fun _ => true, none, false,
          ⟨fun s => s = "running", false⟩⟩
        [Sig.ev (WatchEvent.podEvent EventType.Added
            ⟨"ns", "p1", ⟨[⟨"c1", "running"⟩], []⟩, ⟨[], []⟩⟩),
         Sig.ev (WatchEvent.podEvent EventType.Modified
            ⟨"ns", "p1", ⟨[⟨"c1", "running"⟩], []⟩, ⟨[], []⟩⟩),
         Sig.ev (WatchEvent.podEvent EventType.Modified
            ⟨"ns", "p1", ⟨[⟨"c1", "waiting"⟩], []⟩, ⟨[], []⟩⟩)]).podNameList
      = ["p1"] ∧
    (notifsFor "p1"
      (runWatch
        ⟨fun _ => true, fun _ => true, none, false,
          ⟨fun s => s = "running", false⟩⟩
        [Sig.ev (WatchEvent.podEvent EventType.Added
            ⟨"ns", "p1", ⟨[⟨"c1", "running"⟩], []⟩, ⟨[], []⟩⟩),
         Sig.ev (WatchEvent.podEvent EventType.Modified
            ⟨"ns", "p1", ⟨[⟨"c1", "running"⟩], []⟩, ⟨[], []⟩⟩),
         Sig.ev (WatchEvent.podEvent EventType.Modified
            ⟨"ns", "p1", ⟨[⟨"c1", "waiting"⟩], []⟩, ⟨[], []⟩⟩)]).emitted).getLast?
      = some (Notif.removed ⟨"ns", "p1", "c1"⟩) := by
  decide

/-- Witness for C1: concrete session whose last notification for `p1` is an
`added`; the theorem yields membership in the final registry. -/
theorem watch_C1_witness :
    "p1" ∈ (runWatch
      ⟨fun _ => true, fun _ => true, none, false,
        ⟨fun s => s = "running", false⟩⟩
      [Sig.ev (WatchEvent.podEvent EventType.Added
          ⟨"ns", "p1", ⟨[⟨"c1", "running"⟩], []⟩, ⟨[], []⟩⟩)]).podNameList :=
  watch_C1
    ⟨fun _ => true, fun _ => true, none, false,
      ⟨fun s => s = "running", false⟩⟩
    [Sig.ev (WatchEvent.podEvent EventType.Added
        ⟨"ns", "p1", ⟨[⟨"c1", "running"⟩], []⟩, ⟨[], []⟩⟩)]
    "p1" ⟨⟨"ns", "p1", "c1"⟩, by decide⟩

/-- C2 (amended): a nil payload object from the result channel (upstream
termination) makes the loop return at once with no error surfaced, without
stopping the watcher and WITHOUT closing the `added`/`removed` channels;
only the events before it are processed. -/
theorem watch_C2 (cfg : WatchConfig) (pre rest : List Sig)
    (h : noTerminal pre) :
    runWatch cfg (pre ++ Sig.ev WatchEvent.nilObject :: rest) =
      ⟨(runWatch cfg pre).emitted, (runWatch cfg pre).podNameList,
        false, false, 0, true⟩ := by
  have happ := runLoop_append cfg pre (Sig.ev WatchEvent.nilObject :: rest) [] [] h
  show runLoop cfg [] [] _ = _
  rw [happ]
  rfl

/-- C2 counterexample: on the nil-object event the goroutine returns
(`returned = true`) while both output channels stay open, refuting
"closes both the added and removed output streams before returning". -/
theorem watch_C2_counterexample :
    (runWatch ⟨fun _ => true, fun _ => true, none, false, ⟨fun _ => true, false⟩⟩
        [Sig.ev WatchEvent.nilObject]).returned = true ∧
    (runWatch ⟨fun _ => true, fun _ => true, none, false, ⟨fun _ => true, false⟩⟩
        [Sig.ev WatchEvent.nilObject]).closedAdded = false ∧
    (runWatch ⟨fun _ => true, fun _ => true, none, false, ⟨fun _ => true, false⟩⟩
        [Sig.ev WatchEvent.nilObject]).closedRemoved = false := by
  decide

/-- Witness for C2: the empty prefix before the nil-object event. -/
theorem watch_C2_witness :
    runWatch ⟨fun _ => true, fun _ => true, none, false, ⟨fun _ => true, false⟩⟩
        ([] ++ Sig.ev WatchEvent.nilObject :: []) =
      ⟨[], [], false, false, 0, true⟩ :=
  watch_C2
    ⟨fun _ => true, fun _ => true, none, false, ⟨fun _ => true, false⟩⟩
    [] [] (by decide)

/-- C3: at any reachable point of any event sequence, an Added/Modified
event whose (single, filtered) child has a state the classifier matches
emits exactly one `added` Target for it, and the parent name is in the
registry immediately afterwards. -/
theorem watch_C3 (cfg : WatchConfig) (trace : List Sig) (ty : EventType)
    (pod : Pod) (c : ContainerStatus)
    (hty : ty = EventType.Added ∨ ty = EventType.Modified)
    (hnt : noTerminal trace)
    (hpod : cfg.podFilter pod.Name = true)
    (h1 : cfg.containerFilter c.Name = true)
    (h2 : excludeMatches cfg c.Name = false)
    (h3 : cfg.containerState.Match c.State = true)
    (hstat : pod.Status.ContainerStatuses = [c])
    (hinit : cfg.initContainers = false) :
    (runWatch cfg (trace ++ [Sig.ev (WatchEvent.podEvent ty pod)])).emitted =
      (runWatch cfg trace).emitted ++
        [Notif.added ⟨pod.Namespace, pod.Name, c.Name⟩] ∧
    pod.Name ∈
      (runWatch cfg (trace ++ [Sig.ev (WatchEvent.podEvent ty pod)])).podNameList := by
  have happ := runLoop_append cfg trace [Sig.ev (WatchEvent.podEvent ty pod)] [] [] hnt
  have hproc : ∀ lst : List String,
      processPodEvent cfg lst ty pod =
        (lst ++ [pod.Name], [Notif.added ⟨pod.Namespace, pod.Name, c.Name⟩]) := by
    intro lst
    rcases hty with h | h <;> subst h <;>
      simp [processPodEvent, hpod, hinit, hstat, runSteps,
        statusStep_match_eq cfg pod lst c h1 h2 h3]
  have key : runWatch cfg (trace ++ [Sig.ev (WatchEvent.podEvent ty pod)]) =
      ⟨(runWatch cfg trace).emitted ++
         [Notif.added ⟨pod.Namespace, pod.Name, c.Name⟩],
       (runWatch cfg trace).podNameList ++ [pod.Name],
       false, false, 0, false⟩ := by
    show runLoop cfg [] [] _ = _
    rw [happ]
    simp only [runLoop, hproc]
    rfl
  constructor
  · rw [key]
  · rw [key]
    exact List.mem_append_right _ (List.mem_singleton.mpr rfl)

/-- Witness for C3: empty prefix, one Modified event with a matching
child. -/
theorem watch_C3_witness :
    (runWatch
      ⟨fun _ => true, fun _ => true, none, false,
        ⟨fun s => s = "running", false⟩⟩
      ([] ++ [Sig.ev (WatchEvent.podEvent EventType.Modified
          ⟨"ns", "p1", ⟨[⟨"c1", "running"⟩], []⟩, ⟨[], []⟩⟩)])).emitted =
      [] ++ [Notif.added ⟨"ns", "p1", "c1"⟩] ∧
    "p1" ∈ (runWatch
      ⟨fun _ => true, fun _ => true, none, false,
        ⟨fun s => s = "running", false⟩⟩
      ([] ++ [Sig.ev (WatchEvent.podEvent EventType.Modified
          ⟨"ns", "p1", ⟨[⟨"c1", "running"⟩], []⟩, ⟨[], []⟩⟩)])).podNameList :=
  watch_C3
    ⟨fun _ => true, fun _ => true, none, false,
      ⟨fun s => s = "running", false⟩⟩
    [] EventType.Modified
    ⟨"ns", "p1", ⟨[⟨"c1", "running"⟩], []⟩, ⟨[], []⟩⟩ ⟨"c1", "running"⟩
    (Or.inr rfl) (by decide) (by decide) (by decide) (by decide) (by decide)
    (by decide) (by decide)

/-- C4 (amended): with wildcard mode off, processing a filtered child whose
state does not match emits exactly one `removed` Target, and removes one
occurrence of the parent name from the registry when the name is present —
at most one in general: when the name is absent the registry is unchanged
even though the `removed` Target is still emitted. -/
theorem watch_C4 (cfg : WatchConfig) (pod : Pod) (lst : List String)
    (c : ContainerStatus)
    (h1 : cfg.containerFilter c.Name = true)
    (h2 : excludeMatches cfg c.Name = false)
    (h3 : cfg.containerState.Match c.State = false)
    (h4 : cfg.containerState.hasALL = false) :
    statusStep cfg pod lst c =
      (removeFirst lst pod.Name,
       [Notif.removed ⟨pod.Namespace, pod.Name, c.Name⟩]) ∧
    (pod.Name ∈ lst →
      List.count pod.Name lst =
        List.count pod.Name (removeFirst lst pod.Name) + 1) ∧
    (pod.Name ∉ lst → removeFirst lst pod.Name = lst) := by
  refine ⟨statusStep_noall_eq cfg pod lst c h1 h2 h3 h4, ?_, ?_⟩
  · intro hmem
    rw [count_removeFirst_self]
    have := List.count_pos_iff.mpr hmem
    omega
  · exact fun hmem => removeFirst_of_not_mem hmem

/-- C4 counterexample: child c1 transitions from matching (first event) to
non-matching (second event) with wildcard off, but because c2's processing
already removed the only occurrence of `p1` during the first event, the
transition's `removed` emission removes zero occurrences: the registry is
`[]` before and after the second event. -/
theorem watch_C4_counterexample :
    (runWatch
      ⟨fun _ => true, fun _ => true, none, false,
        ⟨fun s => s = "running", false⟩⟩
      [Sig.ev (WatchEvent.podEvent EventType.Added
          ⟨"ns", "p1", ⟨[⟨"c1", "running"⟩, ⟨"c2", "waiting"⟩], []⟩,
            ⟨[], []⟩⟩)]).podNameList = [] ∧
    runWatch
      ⟨fun _ => true, fun _ => true, none, false,
        ⟨fun s => s = "running", false⟩⟩
      [Sig.ev (WatchEvent.podEvent EventType.Added
          ⟨"ns", "p1", ⟨[⟨"c1", "running"⟩, ⟨"c2", "waiting"⟩], []⟩,
            ⟨[], []⟩⟩),
       Sig.ev (WatchEvent.podEvent EventType.Modified
          ⟨"ns", "p1", ⟨[⟨"c1", "waiting"⟩], []⟩, ⟨[], []⟩⟩)] =
      ⟨[Notif.added ⟨"ns", "p1", "c1"⟩, Notif.removed ⟨"ns", "p1", "c2"⟩,
        Notif.removed ⟨"ns", "p1", "c1"⟩], [], false, false, 0, false⟩ := by
  decide

/-- Witness for C4: a present parent name loses exactly one occurrence. -/
theorem watch_C4_witness :
    statusStep
      ⟨fun _ => true, fun _ => true, none, false,
        ⟨fun s => s = "running", false⟩⟩
      ⟨"ns", "p1", ⟨[], []⟩, ⟨[], []⟩⟩ ["p1"] ⟨"c1", "waiting"⟩ =
      (removeFirst ["p1"] "p1", [Notif.removed ⟨"ns", "p1", "c1"⟩]) ∧
    List.count "p1" ["p1"] =
      List.count "p1" (removeFirst ["p1"] "p1") + 1 :=
  ⟨(watch_C4
      ⟨fun _ => true, fun _ => true, none, false,
        ⟨fun s => s = "running", false⟩⟩
      ⟨"ns", "p1", ⟨[], []⟩, ⟨[], []⟩⟩ ["p1"] ⟨"c1", "waiting"⟩
      (by decide) (by decide) (by decide) (by decide)).1,
   (watch_C4
      ⟨fun _ => true, fun _ => true, none, false,
        ⟨fun s => s = "running", false⟩⟩
      ⟨"ns", "p1", ⟨[], []⟩, ⟨[], []⟩⟩ ["p1"] ⟨"c1", "waiting"⟩
      (by decide) (by decide) (by decide) (by decide)).2.1 (by decide)⟩

/-- C5: under wildcard mode, a filtered child with a non-matching state
emits nothing when the parent name is already in the registry, and emits
exactly one `added` Target and registers the parent when it is not. -/
theorem watch_C5 (cfg : WatchConfig) (pod : Pod) (lst : List String)
    (c : ContainerStatus)
    (h1 : cfg.containerFilter c.Name = true)
    (h2 : excludeMatches cfg c.Name = false)
    (h3 : cfg.containerState.Match c.State = false)
    (h4 : cfg.containerState.hasALL = true) :
    (pod.Name ∈ lst → statusStep cfg pod lst c = (lst, [])) ∧
    (pod.Name ∉ lst →
      statusStep cfg pod lst c =
        (lst ++ [pod.Name],
         [Notif.added ⟨pod.Namespace, pod.Name, c.Name⟩])) :=
  ⟨fun h5 => statusStep_all_mem_eq cfg pod lst c h1 h2 h3 h4 h5,
   fun h5 => statusStep_all_notmem_eq cfg pod lst c h1 h2 h3 h4 h5⟩

/-- Witness for C5: both branches at concrete registries. -/
theorem watch_C5_witness :
    statusStep
      ⟨fun _ => true, fun _ => true, none, false,
        ⟨fun s => s = "running", true⟩⟩
      ⟨"ns", "p1", ⟨[], []⟩, ⟨[], []⟩⟩ ["p1"] ⟨"c1", "waiting"⟩ = (["p1"], []) ∧
    statusStep
      ⟨fun _ => true, fun _ => true, none, false,
        ⟨fun s => s = "running", true⟩⟩
      ⟨"ns", "p1", ⟨[], []⟩, ⟨[], []⟩⟩ [] ⟨"c1", "waiting"⟩ =
      ([] ++ ["p1"], [Notif.added ⟨"ns", "p1", "c1"⟩]) :=
  ⟨(watch_C5
      ⟨fun _ => true, fun _ => true, none, false,
        ⟨fun s => s = "running", true⟩⟩
      ⟨"ns", "p1", ⟨[], []⟩, ⟨[], []⟩⟩ ["p1"] ⟨"c1", "waiting"⟩
      (by decide) (by decide) (by decide) (by decide)).1 (by decide),
   (watch_C5
      ⟨fun _ => true, fun _ => true, none, false,
        ⟨fun s => s = "running", true⟩⟩
      ⟨"ns", "p1", ⟨[], []⟩, ⟨[], []⟩⟩ [] ⟨"c1", "waiting"⟩
      (by decide) (by decide) (by decide) (by decide)).2 (by decide)⟩

/-- C6: a Deleted event takes its candidate children from the pod's
declared spec containers (plus init containers when configured), and each
child surviving the include/exclude filters triggers one unconditional
`removed` Target (no state is even available to check) and removes at most
one occurrence of the parent name from the registry. -/
theorem watch_C6 (cfg : WatchConfig) (pod : Pod) (lst : List String)
    (hpod : cfg.podFilter pod.Name = true) :
    processPodEvent cfg lst EventType.Deleted pod =
      runSteps (containerStep cfg pod) lst
        (pod.Spec.Containers ++
          (if cfg.initContainers then pod.Spec.InitContainers else [])) ∧
    (∀ (lst2 : List String) (c : Container),
      cfg.containerFilter c.Name = true →
      excludeMatches cfg c.Name = false →
      containerStep cfg pod lst2 c =
        (removeFirst lst2 pod.Name,
         [Notif.removed ⟨pod.Namespace, pod.Name, c.Name⟩]) ∧
      List.count pod.Name lst2 ≤
        List.count pod.Name (removeFirst lst2 pod.Name) + 1 ∧
      List.count pod.Name (removeFirst lst2 pod.Name) ≤
        List.count pod.Name lst2) := by
  constructor
  · simp [processPodEvent, hpod]
  · intro lst2 c h1 h2
    refine ⟨containerStep_pass_eq cfg pod lst2 c h1 h2, ?_, ?_⟩
    · by_cases hm : pod.Name ∈ lst2
      · rw [count_removeFirst_self]
        have := List.count_pos_iff.mpr hm
        omega
      · rw [removeFirst_of_not_mem hm]
        omega
    · by_cases hm : pod.Name ∈ lst2
      · rw [count_removeFirst_self]
        omega
      · rw [removeFirst_of_not_mem hm]

/-- Witness for C6: one declared container, parent present once. -/
theorem watch_C6_witness :
    processPodEvent
      ⟨fun _ => true, fun _ => true, none, false, ⟨fun _ => true, false⟩⟩
      ["p1"] EventType.Deleted
      ⟨"ns", "p1", ⟨[], []⟩, ⟨[⟨"c1"⟩], []⟩⟩ =
      runSteps
        (containerStep
          ⟨fun _ => true, fun _ => true, none, false, ⟨fun _ => true, false⟩⟩
          ⟨"ns", "p1", ⟨[], []⟩, ⟨[⟨"c1"⟩], []⟩⟩)
        ["p1"] [⟨"c1"⟩] ∧
    containerStep
      ⟨fun _ => true, fun _ => true, none, false, ⟨fun _ => true, false⟩⟩
      ⟨"ns", "p1", ⟨[], []⟩, ⟨[⟨"c1"⟩], []⟩⟩ ["p1"] ⟨"c1"⟩ =
      (removeFirst ["p1"] "p1", [Notif.removed ⟨"ns", "p1", "c1"⟩]) :=
  ⟨(watch_C6
      ⟨fun _ => true, fun _ => true, none, false, ⟨fun _ => true, false⟩⟩
      ⟨"ns", "p1", ⟨[], []⟩, ⟨[⟨"c1"⟩], []⟩⟩ ["p1"] (by decide)).1,
   ((watch_C6
      ⟨fun _ => true, fun _ => true, none, false, ⟨fun _ => true, false⟩⟩
      ⟨"ns", "p1", ⟨[], []⟩, ⟨[⟨"c1"⟩], []⟩⟩ ["p1"] (by decide)).2
      ["p1"] ⟨"c1"⟩ (by decide) (by decide)).1⟩

/-- C7: a child name matched by the exclusion pattern produces no Target on
either output stream, even when the include pattern also matches, both on
the Added/Modified path and on the Deleted path. -/
theorem watch_C7 (cfg : WatchConfig) (pod : Pod) (lst : List String)
    (cs : ContainerStatus) (cc : Container) (f : String → Bool)
    (hf : cfg.containerExcludeFilter = some f)
    (hcs : f cs.Name = true) (hcsi : cfg.containerFilter cs.Name = true)
    (hcc : f cc.Name = true) (hcci : cfg.containerFilter cc.Name = true) :
    statusStep cfg pod lst cs = (lst, []) ∧
    containerStep cfg pod lst cc = (lst, []) := by
  have h2s : excludeMatches cfg cs.Name = true := by
    simp [excludeMatches, hf, hcs]
  have h2c : excludeMatches cfg cc.Name = true := by
    simp [excludeMatches, hf, hcc]
  exact ⟨statusStep_excluded_eq cfg pod lst cs h2s,
         containerStep_excluded_eq cfg pod lst cc h2c⟩

/-- Witness for C7: include pattern matches everything, exclusion matches
`c1`; no Target is produced on either path. -/
theorem watch_C7_witness :
    statusStep
      ⟨fun _ => true, fun _ => true, some (fun n => n = "c1"), false,
        ⟨fun _ => true, false⟩⟩
      ⟨"ns", "p1", ⟨[], []⟩, ⟨[], []⟩⟩ ["p1"] ⟨"c1", "running"⟩ =
      (["p1"], []) ∧
    containerStep
      ⟨fun _ => true, fun _ => true, some (fun n => n = "c1"), false,
        ⟨fun _ => true, false⟩⟩
      ⟨"ns", "p1", ⟨[], []⟩, ⟨[], []⟩⟩ ["p1"] ⟨"c1"⟩ = (["p1"], []) :=
  watch_C7
    ⟨fun _ => true, fun _ => true, some (fun n => n = "c1"), false,
      ⟨fun _ => true, false⟩⟩
    ⟨"ns", "p1", ⟨[], []⟩, ⟨[], []⟩⟩ ["p1"] ⟨"c1", "running"⟩ ⟨"c1"⟩
    (fun n => n = "c1") rfl (by decide) (by decide) (by decide) (by decide)

/-- C8: when the loop observes cancellation (after any terminal-free
prefix), it stops the watcher exactly once, closes both output channels and
returns; the emissions are exactly those of the prefix — nothing is emitted
after closure, whatever events follow. -/
theorem watch_C8 (cfg : WatchConfig) (pre rest : List Sig)
    (h : noTerminal pre) :
    runWatch cfg (pre ++ Sig.cancel :: rest) =
      ⟨(runWatch cfg pre).emitted, (runWatch cfg pre).podNameList,
        true, true, 1, true⟩ := by
  have happ := runLoop_append cfg pre (Sig.cancel :: rest) [] [] h
  show runLoop cfg [] [] _ = _
  rw [happ]
  rfl

/-- Witness for C8: cancellation after one processed event, with a further
event pending that is never processed. -/
theorem watch_C8_witness :
    runWatch
      ⟨fun _ => true, fun _ => true, none, false,
        ⟨fun s => s = "running", false⟩⟩
      ([Sig.ev (WatchEvent.podEvent EventType.Added
          ⟨"ns", "p1", ⟨[⟨"c1", "running"⟩], []⟩, ⟨[], []⟩⟩)] ++
        Sig.cancel ::
          [Sig.ev (WatchEvent.podEvent EventType.Added
            ⟨"ns", "p2", ⟨[⟨"c1", "running"⟩], []⟩, ⟨[], []⟩⟩)]) =
      ⟨[Notif.added ⟨"ns", "p1", "c1"⟩], ["p1"], true, true, 1, true⟩ :=
  watch_C8
    ⟨fun _ => true, fun _ => true, none, false,
      ⟨fun s => s = "running", false⟩⟩
    [Sig.ev (WatchEvent.podEvent EventType.Added
        ⟨"ns", "p1", ⟨[⟨"c1", "running"⟩], []⟩, ⟨[], []⟩⟩)]
    [Sig.ev (WatchEvent.podEvent EventType.Added
        ⟨"ns", "p2", ⟨[⟨"c1", "running"⟩], []⟩, ⟨[], []⟩⟩)]
    (by decide)

/-- C9: with the all-states wildcard configured, Added/Modified processing
only ever sends on the `added` channel; over any trace with no Deleted
event, every emission of the whole session is an `added`. -/
theorem watch_C9 (cfg : WatchConfig)
    (hall : cfg.containerState.hasALL = true) :
    (∀ (lst : List String) (ty : EventType) (pod : Pod),
      ty = EventType.Added ∨ ty = EventType.Modified →
      ∀ n ∈ (processPodEvent cfg lst ty pod).2, n.isAdded = true) ∧
    (∀ trace : List Sig, noDeleted trace →
      ∀ n ∈ (runWatch cfg trace).emitted, n.isAdded = true) := by
  constructor
  · intro lst ty pod hty n hn
    have hne : ty ≠ EventType.Deleted := by
      rcases hty with h | h <;> subst h <;> intro hc <;> exact EventType.noConfusion hc
    exact processPodEvent_all_added cfg hall lst ty pod hne n hn
  · intro trace hnd n hn
    exact runLoop_all_added cfg hall trace [] [] hnd
      (fun m hm => absurd hm (List.not_mem_nil m)) n hn

/-- Witness for C9: a wildcard session whose non-matching child yields an
`added` emission (and nothing on the removed stream). -/
theorem watch_C9_witness :
    Notif.added ⟨"ns", "p1", "c1"⟩ ∈
      (runWatch
        ⟨fun _ => true, fun _ => true, none, false,
          ⟨fun s => s = "running", true⟩⟩
        [Sig.ev (WatchEvent.podEvent EventType.Added
            ⟨"ns", "p1", ⟨[⟨"c1", "waiting"⟩], []⟩, ⟨[], []⟩⟩)]).emitted ∧
    Notif.isAdded (Notif.added ⟨"ns", "p1", "c1"⟩) = true :=
  ⟨by decide,
   (watch_C9
      ⟨fun _ => true, fun _ => true, none, false,
        ⟨fun s => s = "running", true⟩⟩ rfl).2
      [Sig.ev (WatchEvent.podEvent EventType.Added
          ⟨"ns", "p1", ⟨[⟨"c1", "waiting"⟩], []⟩, ⟨[], []⟩⟩)]
      (by intro pod hmem; simp at hmem)
      (Notif.added ⟨"ns", "p1", "c1"⟩) (by decide)⟩

/-- C10: with wildcard mode off, a filtered child with a non-matching state
always yields exactly one `removed` Target — even when the parent name is
absent from the registry, in which case the registry is left unchanged, so
a `removed` can be emitted for a pair that never had an `added`. -/
theorem watch_C10 (cfg : WatchConfig) (pod : Pod) (lst : List String)
    (c : ContainerStatus)
    (h1 : cfg.containerFilter c.Name = true)
    (h2 : excludeMatches cfg c.Name = false)
    (h3 : cfg.containerState.Match c.State = false)
    (h4 : cfg.containerState.hasALL = false) :
    (statusStep cfg pod lst c).2 =
      [Notif.removed ⟨pod.Namespace, pod.Name, c.Name⟩] ∧
    (pod.Name ∉ lst →
      statusStep cfg pod lst c =
        (lst, [Notif.removed ⟨pod.Namespace, pod.Name, c.Name⟩])) := by
  have he := statusStep_noall_eq cfg pod lst c h1 h2 h3 h4
  constructor
  · rw [he]
  · intro hm
    rw [he, removeFirst_of_not_mem hm]

/-- Witness for C10: empty registry, `removed` emitted anyway. -/
theorem watch_C10_witness :
    (statusStep
      ⟨fun _ => true, fun _ => true, none, false,
        ⟨fun s => s = "running", false⟩⟩
      ⟨"ns", "p1", ⟨[], []⟩, ⟨[], []⟩⟩ [] ⟨"c1", "waiting"⟩).2 =
      [Notif.removed ⟨"ns", "p1", "c1"⟩] ∧
    statusStep
      ⟨fun _ => true, fun _ => true, none, false,
        ⟨fun s => s = "running", false⟩⟩
      ⟨"ns", "p1", ⟨[], []⟩, ⟨[], []⟩⟩ [] ⟨"c1", "waiting"⟩ =
      ([], [Notif.removed ⟨"ns", "p1", "c1"⟩]) :=
  ⟨(watch_C10
      ⟨fun _ => true, fun _ => true, none, false,
        ⟨fun s => s = "running", false⟩⟩
      ⟨"ns", "p1", ⟨[], []⟩, ⟨[], []⟩⟩ [] ⟨"c1", "waiting"⟩
      (by decide) (by decide) (by decide) (by decide)).1,
   (watch_C10
      ⟨fun _ => true, fun _ => true, none, false,
        ⟨fun s => s = "running", false⟩⟩
      ⟨"ns", "p1", ⟨[], []⟩, ⟨[], []⟩⟩ [] ⟨"c1", "waiting"⟩
      (by decide) (by decide) (by decide) (by decide)).2 (by decide)⟩

end Stern
